import Mathlib

/-!
Verification of the commercial deal-intake serverless endpoint.

The development shallowly embeds the handler module (rate limiter, CORS
header computation, multipart parsing with per-attachment validation, field
validation and sanitization, storage-path generation, upload loop, webhook
payload assembly, and the orchestrating handler) as executable Lean
functions, and proves the specification's testable properties about them.

Modelling conventions:
  - JavaScript strings are Lean `String`s (lists of characters); `substring`
    is `List.take`, `trim` drops the JS whitespace set from both ends.
  - `Date.now()` values and the rate-limit timestamps are `Int`s.
  - The in-memory `Map` of the rate limiter and JS objects are association
    lists; `Map.set` / property assignment replace in place.
  - Network effects are oracles: each storage upload call `i` receives the
    response `upResp i`, and the webhook call receives `whResp`; a response
    is `ok` exactly when its status is in 200..299, as for `fetch`.
  - The bounded scan of the script-tag regex is written with an explicit
    fuel argument (`scriptStripF`), instantiated with the string length,
    which is always sufficient; this keeps the function structurally
    recursive and kernel-executable.
-/

/-! ## Rate limiter (`checkRateLimit`) -/

structure RLEntry where
  count : Nat
  timestamp : Int
deriving Repr, DecidableEq

structure RLResult where
  allowed : Bool
  remaining : Nat
deriving Repr, DecidableEq

abbrev RLStore := List (String × RLEntry)

def RATE_LIMIT_WINDOW_MS : Int := 60 * 1000

def RATE_LIMIT_MAX_REQUESTS : Nat := 10

/-- `Map.get` on an association list: first binding wins, as a JS `Map`
(which holds at most one binding per key). -/
def assocGet {α : Type} (m : List (String × α)) (k : String) : Option α :=
  match m with
  | [] => none
  | (k', v) :: rest => if k' = k then some v else assocGet rest k

/-- `Map.set` / JS property assignment: replace the binding in place, else
append at the end. -/
def assocSet {α : Type} (m : List (String × α)) (k : String) (v : α) :
    List (String × α) :=
  match m with
  | [] => [(k, v)]
  | (k', v') :: rest =>
    if k' = k then (k, v) :: rest else (k', v') :: assocSet rest k v

/-- `checkRateLimit(ip)` of the handler module, with the current time and the
mutable store made explicit.  It prunes stale entries, then creates, resets,
denies or increments the caller's entry exactly as the source does. -/
def checkRateLimit (now : Int) (ip : String) (st : RLStore) :
    RLResult × RLStore :=
  let windowStart := now - RATE_LIMIT_WINDOW_MS
  let st1 := st.filter (fun p => decide (windowStart ≤ p.2.timestamp))
  match assocGet st1 ip with
  | none =>
    (⟨true, RATE_LIMIT_MAX_REQUESTS - 1⟩, assocSet st1 ip ⟨1, now⟩)
  | some d =>
    if d.timestamp < windowStart then
      (⟨true, RATE_LIMIT_MAX_REQUESTS - 1⟩, assocSet st1 ip ⟨1, now⟩)
    else if RATE_LIMIT_MAX_REQUESTS ≤ d.count then
      (⟨false, 0⟩, st1)
    else
      (⟨true, RATE_LIMIT_MAX_REQUESTS - (d.count + 1)⟩,
       assocSet st1 ip ⟨d.count + 1, d.timestamp⟩)

/-- A sequence of rate-limit checks for one caller at the given times,
threading the store; returns the decisions in order. -/
def runChecks (ip : String) (st : RLStore) : List Int → List RLResult
  | [] => []
  | t :: ts =>
    let r := checkRateLimit t ip st
    r.1 :: runChecks ip r.2 ts

/-! ## String utilities of the handler module -/

/-- The character class matched by JS `\s` and removed by `String.trim`
(WhiteSpace plus LineTerminator). -/
def isJsWhitespace (c : Char) : Bool :=
  c.toNat = 0x09 || c.toNat = 0x0A || c.toNat = 0x0B || c.toNat = 0x0C ||
  c.toNat = 0x0D || c.toNat = 0x20 || c.toNat = 0xA0 || c.toNat = 0x1680 ||
  (0x2000 ≤ c.toNat && c.toNat ≤ 0x200A) || c.toNat = 0x2028 ||
  c.toNat = 0x2029 || c.toNat = 0x202F || c.toNat = 0x205F ||
  c.toNat = 0x3000 || c.toNat = 0xFEFF

/-- JS `String.prototype.trim`: drop JS whitespace from both ends. -/
def trimChars (l : List Char) : List Char :=
  ((l.dropWhile isJsWhitespace).reverse.dropWhile isJsWhitespace).reverse

def trimString (s : String) : String := String.mk (trimChars s.data)

/-- Case-insensitive match of one pattern character (the pattern characters
used here are lowercase letters or the symbols of the script tags; the `i`
flag folds ASCII letters only). -/
def matchCIchar (p c : Char) : Bool :=
  c = p || (97 ≤ p.toNat && p.toNat ≤ 122 && c.toNat + 32 = p.toNat)

/-- Case-insensitive prefix test of a pattern against the input. -/
def matchesCI : List Char → List Char → Bool
  | [], _ => true
  | p :: ps, l =>
    match l with
    | [] => false
    | c :: cs => matchCIchar p c && matchesCI ps cs

def scriptOpenPat : List Char := ['<', 's', 'c', 'r', 'i', 'p', 't']

def scriptClosePat : List Char := ['<', '/', 's', 'c', 'r', 'i', 'p', 't', '>']

/-- JS `\w` (word character), used for the `\b` boundary after `<script`. -/
def isWordChar (c : Char) : Bool := c.isAlpha || c.isDigit || c = '_'

/-- The `\b` after `<script` holds when the next character is not a word
character (or the input ends). -/
def boundaryAfterScript (rest : List Char) : Bool :=
  match rest with
  | [] => true
  | c :: _ => !(isWordChar c)

/-- Scan for the first case-insensitive `</script>` and return the suffix
after it; `none` when there is no closing tag (so the regex cannot match). -/
def dropCloseTag : List Char → Option (List Char)
  | [] => none
  | c :: cs =>
    if matchesCI scriptClosePat (c :: cs) then some (List.drop 9 (c :: cs))
    else dropCloseTag cs

/-- Global replacement of `/<script\b[^<]*(?:(?!<\/script>)<[^<]*)*<\/script>/gi`
by the empty string: a match starts at a case-insensitive `<script` followed
by a word boundary and extends through the first subsequent case-insensitive
`</script>`; scanning resumes after the removed match.  The fuel argument
bounds the scan; `scriptStrip` passes the input length, which always
suffices. -/
def scriptStripF : Nat → List Char → List Char
  | 0, l => l
  | _ + 1, [] => []
  | fuel + 1, c :: cs =>
    if matchesCI scriptOpenPat (c :: cs)
        && boundaryAfterScript (List.drop 7 (c :: cs)) then
      match dropCloseTag (List.drop 7 (c :: cs)) with
      | some rest => scriptStripF fuel rest
      | none => c :: scriptStripF fuel cs
    else c :: scriptStripF fuel cs

def scriptStrip (l : List Char) : List Char := scriptStripF l.length l

/-- `.replace(/[<>]/g, '')`: remove every angle bracket. -/
def angleStrip (l : List Char) : List Char :=
  l.filter (fun c => !(c = '<' || c = '>'))

/-- The sanitization applied to every string field by `validateFormData`:
strip script-tag blocks, strip angle brackets, trim, and cap the length at
10000 (`substring(0, 10000)`). -/
def sanitizeChars (l : List Char) : List Char :=
  (trimChars (angleStrip (scriptStrip l))).take 10000

def sanitizeField (s : String) : String := String.mk (sanitizeChars s.data)

/-- Prefix test on character lists (exact, case-sensitive). -/
def startsWithChars : List Char → List Char → Bool
  | [], _ => true
  | a :: as, l =>
    match l with
    | [] => false
    | b :: bs => a = b && startsWithChars as bs

/-- Substring containment on character lists; models
`String.prototype.includes`. -/
def containsSubChars (needle : List Char) : List Char → Bool
  | [] => needle.isEmpty
  | c :: rest =>
    startsWithChars needle (c :: rest) || containsSubChars needle rest

def strIncludes (hay needle : String) : Bool :=
  containsSubChars needle.data hay.data

/-! ## Storage uploader (`uploadToSupabase`) -/

/-- The lowercase hex digit for `n < 16`, as `Number.prototype.toString(16)`
renders it: `0`..`9` then `a`..`f`. -/
def hexDigitChar (n : Nat) : Char :=
  if n < 10 then Char.ofNat (48 + n) else Char.ofNat (87 + n)

/-- `b.toString(16).padStart(2, '0')` for a byte `b < 256`. -/
def byteToHex (b : Nat) : List Char := [hexDigitChar (b / 16), hexDigitChar (b % 16)]

/-- The random id: 8 bytes from `crypto.getRandomValues`, each rendered as
two lowercase hex digits and joined. -/
def randomHexId (bytes : List Nat) : String :=
  String.mk ((bytes.map byteToHex).flatten)

/-- Character class `[a-zA-Z0-9.-]` kept by the filename sanitizer. -/
def isFileNameChar (c : Char) : Bool :=
  (65 ≤ c.toNat && c.toNat ≤ 90) || (97 ≤ c.toNat && c.toNat ≤ 122) ||
  (48 ≤ c.toNat && c.toNat ≤ 57) || c = '.' || c = '-'

/-- `filename.replace(/[^a-zA-Z0-9.-]/g, '_').substring(0, 100)`. -/
def sanitizeFileName (f : String) : String :=
  String.mk ((f.data.map (fun c => if isFileNameChar c then c else '_')).take 100)

/-- The generated storage path
`uploads/<epoch-ms>-<random hex id>-<sanitized filename>`. -/
def storagePath (ts : Nat) (bytes : List Nat) (filename : String) : String :=
  "uploads/" ++ toString ts ++ "-" ++ randomHexId bytes ++ "-" ++
    sanitizeFileName filename

structure UploadResult where
  category : String
  originalname : String
  url : String
  key : String
deriving Repr, DecidableEq

/-- A `fetch` response, as far as the handler inspects it. -/
structure FetchResp where
  status : Nat
  body : String
deriving Repr, DecidableEq

/-- `Response.ok`: status in the inclusive range 200..299. -/
def fetchOk (r : FetchResp) : Bool := 200 ≤ r.status && r.status ≤ 299

/-- `uploadToSupabase(fileBuffer, filename, mimetype, category)`, with the
configuration, the `Date.now()` value, the random bytes and the storage
backend's response made explicit.  On a success response it returns the
upload record with the deterministic public URL; otherwise it throws (an
`Except.error`) carrying the backend's status and body. -/
def uploadToSupabase (supabaseUrl bucket : String) (ts : Nat)
    (bytes : List Nat) (resp : FetchResp) (fileBuffer : List Nat)
    (filename mimetype category : String) : Except String UploadResult :=
  let filePath := storagePath ts bytes filename
  if fetchOk resp then
    Except.ok
      ⟨category, filename,
       supabaseUrl ++ "/storage/v1/object/public/" ++ bucket ++ "/" ++ filePath,
       filePath⟩
  else
    Except.error
      ("Storage upload failed: " ++ toString resp.status ++ " - " ++ resp.body)

/-! ## CORS headers (`getCorsHeaders`) -/

/-- `getCorsHeaders(origin)`: `isAllowed` is true when no origins are
configured, the origin is an exact member of the list, or the origin
contains `vercel.app` as a substring (`origin?.includes('vercel.app')`);
the allow-origin header echoes the origin when allowed and otherwise falls
back to the first configured origin or `*` (`ALLOWED_ORIGINS[0] || '*'`). -/
def getCorsHeaders (allowedOrigins : List String) (origin : String) :
    List (String × String) :=
  let isAllowed := allowedOrigins.isEmpty || allowedOrigins.contains origin
    || strIncludes origin "vercel.app"
  [("Access-Control-Allow-Origin",
    if isAllowed then origin
    else match allowedOrigins with
      | [] => "*"
      | a :: _ => if a = "" then "*" else a),
   ("Access-Control-Allow-Methods", "POST, OPTIONS"),
   ("Access-Control-Allow-Headers", "Content-Type, X-Requested-With"),
   ("Access-Control-Max-Age", "86400"),
   ("Content-Type", "application/json")]

/-! ## Multipart parsing (`parseMultipartFormData`) -/

/-- A `FormData` entry value: a text part or a `File` part. -/
inductive PartValue where
  | text (s : String)
  | file (name : String) (mime : String) (size : Nat) (buffer : List Nat)
deriving Repr, DecidableEq

/-- A validated file as collected by `parseMultipartFormData`. -/
structure FileRec where
  fieldname : String
  originalname : String
  mimetype : String
  size : Nat
  buffer : List Nat
deriving Repr, DecidableEq

def MAX_FILE_SIZE : Nat := 25 * 1024 * 1024

def ALLOWED_MIME_TYPES : List String :=
  ["application/pdf",
   "application/vnd.ms-excel",
   "application/vnd.openxmlformats-officedocument.spreadsheetml.sheet",
   "application/msword",
   "application/vnd.openxmlformats-officedocument.wordprocessingml.document",
   "text/csv",
   "image/jpeg",
   "image/png",
   "image/gif"]

def ALLOWED_FILE_CATEGORIES : List String :=
  ["pnl", "rentRoll", "t12", "om", "capex", "utility", "financialInfo"]

/-- The `for (const [key, value] of formData.entries())` loop: text parts go
into the fields object (assignment semantics), file parts are validated
fail-fast (size, MIME type, category) and appended to the files array. -/
def parseParts : List (String × PartValue) → List (String × String) →
    List FileRec → Except String (List (String × String) × List FileRec)
  | [], fields, files => Except.ok (fields, files)
  | (key, PartValue.file name mime size buf) :: rest, fields, files =>
    if MAX_FILE_SIZE < size then
      Except.error ("File " ++ name ++ " exceeds maximum size of 25MB")
    else if !(ALLOWED_MIME_TYPES.contains mime) then
      Except.error ("File type " ++ mime ++ " is not allowed for " ++ name)
    else if !(ALLOWED_FILE_CATEGORIES.contains key) then
      Except.error ("Invalid file category: " ++ key)
    else parseParts rest fields (files ++ [⟨key, name, mime, size, buf⟩])
  | (key, PartValue.text v) :: rest, fields, files =>
    parseParts rest (assocSet fields key v) files

/-- `parseMultipartFormData(request)`: reject a non-multipart content type,
then walk the form-data entries. -/
def parseMultipartFormData (contentType : String)
    (parts : List (String × PartValue)) :
    Except String (List (String × String) × List FileRec) :=
  if !(strIncludes contentType "multipart/form-data") then
    Except.error "Invalid content type. Expected multipart/form-data"
  else parseParts parts [] []

/-! ## Field validation (`validateFormData`)

All multipart text values are strings, so the `typeof value === 'string'`
tests of the source always succeed and the falsiness checks reduce to
missing-or-empty. -/

/-- `!body.k || body.k.trim().length < 2` for a string-valued field. -/
def missingOrShort (m : List (String × String)) (k : String) : Bool :=
  match assocGet m k with
  | none => true
  | some v => v = "" || (trimChars v.data).length < 2

/-- `!body.k` for a string-valued field. -/
def missingStr (m : List (String × String)) (k : String) : Bool :=
  match assocGet m k with
  | none => true
  | some v => v = ""

/-- A character admitted by `[^\s@]` of the email pattern. -/
def emailOkChar (c : Char) : Bool := !(isJsWhitespace c) && !(c = '@')

/-- The test of `/^[^\s@]+@[^\s@]+\.[^\s@]+$/`: exactly one `@`, a nonempty
local part, and a nonempty remainder whose characters avoid whitespace and
`@` and which has a dot that is neither its first nor its last character. -/
def emailFormatOk (s : String) : Bool :=
  match s.data.splitOn '@' with
  | [loc, rest] =>
    !loc.isEmpty && loc.all emailOkChar && !rest.isEmpty &&
      rest.all emailOkChar && (rest.drop 1).dropLast.contains '.'
  | _ => false

/-- `validateFormData(body)`: the accumulated error strings in push order,
and the sanitized copy of the body. -/
def validateFormData (body : List (String × String)) :
    List String × List (String × String) :=
  let e1 := if missingOrShort body "propertyName" then
    ["Property Name is required and must be at least 2 characters"] else []
  let e2 := if missingStr body "propertyType" then
    ["Property Type is required"] else []
  let e3 := if missingOrShort body "submitterName" then
    ["Your Name is required and must be at least 2 characters"] else []
  let e4 := if missingStr body "submitterPhone" then
    ["Your Phone is required"] else []
  let e5 := match assocGet body "submitterEmail" with
    | none => ["Your Email is required"]
    | some v =>
      if v = "" then ["Your Email is required"]
      else if emailFormatOk v then [] else ["Invalid email format"]
  let e6 := if assocGet body "finalAcknowledgement" = some "true" then []
    else ["Final acknowledgement is required"]
  (e1 ++ e2 ++ e3 ++ e4 ++ e5 ++ e6,
   body.map (fun kv => (kv.1, sanitizeField kv.2)))

/-! ## JSON values and the response bodies -/

inductive Json where
  | str (s : String)
  | num (n : Nat)
  | bool (b : Bool)
  | arr (items : List Json)
  | obj (fields : List (String × Json))

/-- `{success: false, error: msg}`. -/
def jsonErr (msg : String) : Json :=
  Json.obj [("success", Json.bool false), ("error", Json.str msg)]

/-- `{success: false, error: 'Validation failed', details: errors}`. -/
def jsonValidationFailed (details : List String) : Json :=
  Json.obj [("success", Json.bool false),
            ("error", Json.str "Validation failed"),
            ("details", Json.arr (details.map Json.str))]

/-- The 429 body with the retry hint. -/
def jsonRateLimited : Json :=
  Json.obj [("success", Json.bool false),
            ("error", Json.str "Too many requests. Please try again later."),
            ("retryAfter", Json.num 60)]

/-- The 200 body. -/
def jsonSuccess : Json :=
  Json.obj [("success", Json.bool true),
            ("message", Json.str "Submission received successfully")]

def jsonObjGet (j : Json) (k : String) : Option Json :=
  match j with
  | Json.obj m => assocGet m k
  | _ => none

/-! ## Environment, request and handler -/

/-- The environment variables the module reads; `none` models an unset
variable, and the source treats the empty string the same way wherever it
tests falsiness. -/
structure Env where
  webhookUrl : Option String
  supabaseUrl : Option String
  supabaseServiceKey : Option String
  supabaseBucket : Option String
  allowedOrigins : List String

/-- Falsy test of `process.env.X`. -/
def strFalsyOpt : Option String → Bool
  | none => true
  | some s => s = ""

/-- `process.env.SUPABASE_BUCKET || 'temp_files'`. -/
def bucketOf (e : Env) : String :=
  match e.supabaseBucket with
  | none => "temp_files"
  | some s => if s = "" then "temp_files" else s

/-- Template-literal interpolation of a possibly undefined value. -/
def jsTemplate : Option String → String
  | none => "undefined"
  | some s => s

/-- The incoming request, as far as the handler inspects it: the method,
the headers it reads, and the (well-formed) multipart entries in order. -/
structure Request where
  method : String
  origin : Option String
  contentType : Option String
  xForwardedFor : Option String
  xRealIp : Option String
  parts : List (String × PartValue)

def originOf (req : Request) : String :=
  match req.origin with
  | none => ""
  | some s => s

def contentTypeOf (req : Request) : String :=
  match req.contentType with
  | none => ""
  | some s => s

/-- `s.split(',')[0]`. -/
def headCommaSplit (s : String) : String :=
  match s.data.splitOn ',' with
  | [] => ""
  | l :: _ => String.mk l

/-- `headers.get('x-forwarded-for')?.split(',')[0]?.trim() ||
headers.get('x-real-ip') || 'unknown'`. -/
def clientIpOf (xff xri : Option String) : String :=
  let t := match xff with
    | none => ""
    | some s => trimString (headCommaSplit s)
  if t = "" then
    match xri with
    | none => "unknown"
    | some r => if r = "" then "unknown" else r
  else t

/-- The sequential upload loop: the first list records every file for which
`uploadToSupabase` was invoked (and hence a storage call was made); the
second component is the collected results, or the `originalname` of the
first file whose upload failed.  The oracle `meta i` supplies `Date.now()`
and the random bytes of call `i`, and `resp i` the storage response. -/
def uploadAll (supabaseUrl bucket : String) (meta : Nat → Nat × List Nat)
    (resp : Nat → FetchResp) :
    Nat → List FileRec → List FileRec × Except String (List UploadResult)
  | _, [] => ([], Except.ok [])
  | i, f :: rest =>
    match uploadToSupabase supabaseUrl bucket (meta i).1 (meta i).2 (resp i)
        f.buffer f.originalname f.mimetype f.fieldname with
    | Except.error _ => ([f], Except.error f.originalname)
    | Except.ok r =>
      match uploadAll supabaseUrl bucket meta resp (i + 1) rest with
      | (att, Except.error e) => (f :: att, Except.error e)
      | (att, Except.ok rs) => (f :: att, Except.ok (r :: rs))

/-- The upload results produced when every storage call succeeds. -/
def expectedUploads (supabaseUrl bucket : String) (meta : Nat → Nat × List Nat) :
    Nat → List FileRec → List UploadResult
  | _, [] => []
  | i, f :: rest =>
    ⟨f.fieldname, f.originalname,
     supabaseUrl ++ "/storage/v1/object/public/" ++ bucket ++ "/" ++
       storagePath (meta i).1 (meta i).2 f.originalname,
     storagePath (meta i).1 (meta i).2 f.originalname⟩ ::
      expectedUploads supabaseUrl bucket meta (i + 1) rest

/-- The value stored per category in the payload's `files` object. -/
def fileEntryJson (f : UploadResult) : Json :=
  Json.obj [("originalname", Json.str f.originalname), ("url", Json.str f.url)]

/-- The `files` object of the webhook payload:
`uploadedFiles.reduce((acc, file) => {acc[file.category] = {...}}, {})`. -/
def filesObject (ufs : List UploadResult) : List (String × Json) :=
  ufs.foldl (fun acc f => assocSet acc f.category (fileEntryJson f)) []

/-- The webhook payload: the sanitized fields spread first, then the server
fields assigned over them with object-literal semantics. -/
def webhookPayloadOf (sanitized : List (String × String)) (isoNow : String)
    (ip : String) (ufs : List UploadResult) : Json :=
  let base := sanitized.map (fun kv => (kv.1, Json.str kv.2))
  let m1 := assocSet base "serverTimestamp" (Json.str isoNow)
  let m2 := assocSet m1 "serverProcessed" (Json.bool true)
  let m3 := assocSet m2 "clientIp" (Json.str (String.mk (ip.data.take 45)))
  let m4 := assocSet m3 "files" (Json.obj (filesObject ufs))
  Json.obj (assocSet m4 "fileUrls" (Json.arr (ufs.map (fun f => Json.str f.url))))

/-- One terminal outcome of the handler: the HTTP response (status, JSON
body, headers), the rate-limit store after the request, the files for which
a storage upload call was made, and the payload sent to the webhook when
that call happened. -/
structure HandlerOut where
  status : Nat
  body : Option Json
  headers : List (String × String)
  storeAfter : RLStore
  uploadCalls : List FileRec
  webhookPayload : Option Json

/-- The exported request handler, in source order: CORS preflight, method
gate, rate limit, configuration gates, multipart parse, field validation
plus required-attachment check, sequential uploads, webhook relay. -/
def handler (env : Env) (req : Request) (st : RLStore) (now : Int)
    (isoNow : String) (upMeta : Nat → Nat × List Nat)
    (upResp : Nat → FetchResp) (whResp : FetchResp) : HandlerOut :=
  let cors := getCorsHeaders env.allowedOrigins (originOf req)
  if req.method = "OPTIONS" then ⟨204, none, cors, st, [], none⟩
  else if !(req.method = "POST") then
    ⟨405, some (jsonErr "Method not allowed"), cors, st, [], none⟩
  else
    let ip := clientIpOf req.xForwardedFor req.xRealIp
    let rl := checkRateLimit now ip st
    if rl.1.allowed = false then
      ⟨429, some jsonRateLimited,
       cors ++ [("Retry-After", "60"), ("X-RateLimit-Remaining", "0")],
       rl.2, [], none⟩
    else if strFalsyOpt env.webhookUrl then
      ⟨500, some (jsonErr "Server configuration error"), cors, rl.2, [], none⟩
    else if strFalsyOpt env.supabaseUrl || strFalsyOpt env.supabaseServiceKey then
      ⟨500, some (jsonErr "Storage configuration error"), cors, rl.2, [], none⟩
    else
      match parseMultipartFormData (contentTypeOf req) req.parts with
      | Except.error msg =>
        ⟨400, some (jsonErr msg), cors, rl.2, [], none⟩
      | Except.ok (fields, files) =>
        let ve := validateFormData fields
        let errors :=
          if files.any (fun f => f.fieldname = "financialInfo") then ve.1
          else ve.1 ++ ["Financial Information document is required"]
        if !errors.isEmpty then
          ⟨400, some (jsonValidationFailed errors), cors, rl.2, [], none⟩
        else
          match uploadAll (jsTemplate env.supabaseUrl) (bucketOf env)
              upMeta upResp 0 files with
          | (att, Except.error name) =>
            ⟨500, some (jsonErr ("Failed to upload file: " ++ name)),
             cors, rl.2, att, none⟩
          | (att, Except.ok results) =>
            let payload := webhookPayloadOf ve.2 isoNow ip results
            if fetchOk whResp then
              ⟨200, some jsonSuccess,
               cors ++ [("X-RateLimit-Remaining", toString rl.1.remaining)],
               rl.2, att, some payload⟩
            else
              ⟨502, some (jsonErr "Failed to process submission. Please try again."),
               cors, rl.2, att, some payload⟩

/-! ## Concrete scenario inputs used by the witnesses -/

def demoEnv : Env :=
  ⟨some "https://hook.example.com", some "https://sb.example.com",
   some "service-key", none, ["https://app.example.com"]⟩

def demoMeta : Nat → Nat × List Nat :=
  fun _ => (1700000000000, [0, 17, 34, 51, 68, 85, 102, 255])

def demoUpOk : Nat → FetchResp := fun _ => ⟨200, ""⟩

def demoTextParts : List (String × PartValue) :=
  [("propertyName", PartValue.text "Sunset Park"),
   ("propertyType", PartValue.text "RV Park"),
   ("submitterName", PartValue.text "Jane Doe"),
   ("submitterPhone", PartValue.text "555-0100"),
   ("submitterEmail", PartValue.text "jane@example.com"),
   ("finalAcknowledgement", PartValue.text "true")]

def demoFinPart : String × PartValue :=
  ("financialInfo", PartValue.file "fin.pdf" "application/pdf" 1000 [1, 2, 3])

def demoReqOf (parts : List (String × PartValue)) : Request :=
  ⟨"POST", some "https://app.example.com",
   some "multipart/form-data; boundary=x", some "203.0.113.9", none, parts⟩

/-! ## Association-list lemmas -/

theorem assocGet_mem {α : Type} {m : List (String × α)} {k : String} {v : α}
    (h : assocGet m k = some v) : (k, v) ∈ m := by
  induction m with
  | nil => simp [assocGet] at h
  | cons p rest ih =>
    obtain ⟨k', v'⟩ := p
    by_cases hk : k' = k
    · subst hk
      simp [assocGet] at h
      simp [h]
    · simp [assocGet, hk] at h
      exact List.mem_cons_of_mem _ (ih h)

theorem assocGet_of_mem_nodup {α : Type} {m : List (String × α)} {k : String}
    {v : α} (hnd : (m.map Prod.fst).Nodup) (h : (k, v) ∈ m) :
    assocGet m k = some v := by
  induction m with
  | nil => simp at h
  | cons p rest ih =>
    obtain ⟨k', v'⟩ := p
    simp only [List.map_cons, List.nodup_cons] at hnd
    rcases List.mem_cons.mp h with h1 | h1
    · obtain ⟨hk, hv⟩ := Prod.mk.injEq .. ▸ h1
      simp [assocGet, hk.symm, hv]
    · have hk : ¬ k' = k := by
        intro he
        subst he
        exact hnd.1 (List.mem_map.mpr ⟨(k', v), h1, rfl⟩)
      simp [assocGet, hk]
      exact ih hnd.2 h1

/-- C8: a preflight `OPTIONS` request always gets a `204` with an empty
body, whatever the configuration, the rate-limit store, and every other
input. -/
theorem handler_options_preflight (env : Env) (req : Request) (st : RLStore)
    (now : Int) (isoNow : String) (upMeta : Nat → Nat × List Nat)
    (upResp : Nat → FetchResp) (whResp : FetchResp)
    (h : req.method = "OPTIONS") :
    (handler env req st now isoNow upMeta upResp whResp).status = 204 ∧
    (handler env req st now isoNow upMeta upResp whResp).body = none ∧
    (handler env req st now isoNow upMeta upResp whResp).uploadCalls = [] ∧
    (handler env req st now isoNow upMeta upResp whResp).storeAfter = st := by
  simp [handler, h]

theorem handler_options_preflight_witness :
    (handler ⟨none, none, none, none, []⟩
      ⟨"OPTIONS", none, none, none, none, []⟩ [] 0 ""
      (fun _ => (0, [])) (fun _ => ⟨0, ""⟩) ⟨0, ""⟩).status = 204 ∧
    (handler ⟨none, none, none, none, []⟩
      ⟨"OPTIONS", none, none, none, none, []⟩ [] 0 ""
      (fun _ => (0, [])) (fun _ => ⟨0, ""⟩) ⟨0, ""⟩).body = none ∧
    (handler ⟨none, none, none, none, []⟩
      ⟨"OPTIONS", none, none, none, none, []⟩ [] 0 ""
      (fun _ => (0, [])) (fun _ => ⟨0, ""⟩) ⟨0, ""⟩).uploadCalls = [] ∧
    (handler ⟨none, none, none, none, []⟩
      ⟨"OPTIONS", none, none, none, none, []⟩ [] 0 ""
      (fun _ => (0, [])) (fun _ => ⟨0, ""⟩) ⟨0, ""⟩).storeAfter = [] :=
  handler_options_preflight _ _ _ _ _ _ _ _ rfl

/-- C10: a denied rate-limit check does not modify the caller's stored
entry: when `checkRateLimit` returns `allowed = false`, the caller's entry
in the updated store is exactly the entry in the previous store (neither
the count nor the window-start timestamp changes, so a denial does not
extend the lock-out window). -/
theorem checkRateLimit_denied_frame (now : Int) (ip : String) (st : RLStore)
    (hnd : (st.map Prod.fst).Nodup)
    (hden : (checkRateLimit now ip st).1.allowed = false) :
    assocGet (checkRateLimit now ip st).2 ip = assocGet st ip := by
  simp only [checkRateLimit] at hden ⊢
  generalize hst1 : List.filter
    (fun p => decide (now - RATE_LIMIT_WINDOW_MS ≤ p.2.timestamp)) st = st1
    at hden ⊢
  cases hget : assocGet st1 ip with
  | none => simp [hget] at hden
  | some d =>
    by_cases hexp : d.timestamp < now - RATE_LIMIT_WINDOW_MS
    · simp [hget, hexp] at hden
    · by_cases hcnt : RATE_LIMIT_MAX_REQUESTS ≤ d.count
      · simp only [hget]
        simp [hexp, hcnt]
        have hmem' : (ip, d) ∈ st := by
          have hmem : (ip, d) ∈ st1 := assocGet_mem hget
          rw [← hst1] at hmem
          exact List.mem_of_mem_filter hmem
        rw [hget, assocGet_of_mem_nodup hnd hmem']
      · simp [hget, hexp, hcnt] at hden

/-- C2: when the rate-limit and configuration gates pass and the multipart
body parses with every attachment valid, a request whose file parts never
use the field name `financialInfo` is answered `400` with
`Financial Information document is required` among the details, whatever the
other fields contain, and no upload call is made. -/
theorem handler_missing_financial_info (env : Env) (req : Request)
    (st : RLStore) (now : Int) (isoNow : String)
    (upMeta : Nat → Nat × List Nat) (upResp : Nat → FetchResp)
    (whResp : FetchResp) (fields : List (String × String))
    (files : List FileRec)
    (hm : req.method = "POST")
    (hrl : (checkRateLimit now (clientIpOf req.xForwardedFor req.xRealIp)
      st).1.allowed = true)
    (hw : strFalsyOpt env.webhookUrl = false)
    (hs : strFalsyOpt env.supabaseUrl = false)
    (hk : strFalsyOpt env.supabaseServiceKey = false)
    (hp : parseMultipartFormData (contentTypeOf req) req.parts =
      Except.ok (fields, files))
    (hnofin : (files.any fun f => f.fieldname = "financialInfo") = false) :
    (handler env req st now isoNow upMeta upResp whResp).status = 400 ∧
    (handler env req st now isoNow upMeta upResp whResp).body =
      some (jsonValidationFailed ((validateFormData fields).1 ++
        ["Financial Information document is required"])) ∧
    "Financial Information document is required" ∈
      (validateFormData fields).1 ++
        ["Financial Information document is required"] ∧
    (handler env req st now isoNow upMeta upResp whResp).uploadCalls = [] ∧
    (handler env req st now isoNow upMeta upResp whResp).webhookPayload
      = none := by
  have hm' : ¬ req.method = "OPTIONS" := by rw [hm]; decide
  simp [handler, hm, hm', hrl, hw, hs, hk, hp, hnofin]

theorem handler_missing_financial_info_witness :
    (handler demoEnv (demoReqOf demoTextParts) [] 0 "" demoMeta demoUpOk
      ⟨200, ""⟩).status = 400 ∧
    (handler demoEnv (demoReqOf demoTextParts) [] 0 "" demoMeta demoUpOk
      ⟨200, ""⟩).uploadCalls = [] :=
  have h := handler_missing_financial_info demoEnv (demoReqOf demoTextParts)
    [] 0 "" demoMeta demoUpOk ⟨200, ""⟩ _ _ rfl rfl rfl rfl rfl rfl rfl
  ⟨h.1, h.2.2.2.1⟩

/-- Any entry list containing an oversized file part makes the form-data
walk abort with an error, whatever the accumulators hold. -/
theorem parseParts_error_of_oversize (parts : List (String × PartValue))
    (fields : List (String × String)) (files : List FileRec)
    (hbig : ∃ key name mime size buf,
      (key, PartValue.file name mime size buf) ∈ parts ∧
        MAX_FILE_SIZE < size) :
    ∃ e, parseParts parts fields files = Except.error e := by
  induction parts generalizing fields files with
  | nil =>
    obtain ⟨_, _, _, _, _, hmem, _⟩ := hbig
    simp at hmem
  | cons p rest ih =>
    obtain ⟨key, name, mime, size, buf, hmem, hsz⟩ := hbig
    obtain ⟨k, v⟩ := p
    cases v with
    | text s =>
      have hmem' : (key, PartValue.file name mime size buf) ∈ rest := by
        rcases List.mem_cons.mp hmem with h1 | h1
        · exact absurd (congrArg Prod.snd h1) (by simp)
        · exact h1
      simpa [parseParts] using
        ih (assocSet fields k s) files ⟨key, name, mime, size, buf, hmem', hsz⟩
    | file n m sz bf =>
      by_cases hsz2 : MAX_FILE_SIZE < sz
      · exact ⟨"File " ++ n ++ " exceeds maximum size of 25MB",
          by simp [parseParts, hsz2]⟩
      · by_cases hmime : m ∈ ALLOWED_MIME_TYPES
        · by_cases hcat : k ∈ ALLOWED_FILE_CATEGORIES
          · have hmem' : (key, PartValue.file name mime size buf) ∈ rest := by
              rcases List.mem_cons.mp hmem with h1 | h1
              · exfalso
                have h2 := congrArg Prod.snd h1
                simp at h2
                exact hsz2 (h2.2.2.1 ▸ hsz)
              · exact h1
            obtain ⟨e, he⟩ := ih fields (files ++ [⟨k, n, m, sz, bf⟩])
              ⟨key, name, mime, size, buf, hmem', hsz⟩
            exact ⟨e, by simp [parseParts, hsz2, hmime, hcat, he]⟩
          · exact ⟨"Invalid file category: " ++ k,
              by simp [parseParts, hsz2, hmime, hcat]⟩
        · exact ⟨"File type " ++ m ++ " is not allowed for " ++ n,
            by simp [parseParts, hsz2, hmime]⟩

/-- C3: a multipart request containing an attachment above 25 MiB makes the
parse abort with an error, the handler answer `400`, and no storage upload
call happen for any attachment of the request. -/
theorem handler_oversize_attachment (env : Env) (req : Request)
    (st : RLStore) (now : Int) (isoNow : String)
    (upMeta : Nat → Nat × List Nat) (upResp : Nat → FetchResp)
    (whResp : FetchResp)
    (hm : req.method = "POST")
    (hrl : (checkRateLimit now (clientIpOf req.xForwardedFor req.xRealIp)
      st).1.allowed = true)
    (hw : strFalsyOpt env.webhookUrl = false)
    (hs : strFalsyOpt env.supabaseUrl = false)
    (hk : strFalsyOpt env.supabaseServiceKey = false)
    (hct : strIncludes (contentTypeOf req) "multipart/form-data" = true)
    (hbig : ∃ key name mime size buf,
      (key, PartValue.file name mime size buf) ∈ req.parts ∧
        MAX_FILE_SIZE < size) :
    (∃ e, parseMultipartFormData (contentTypeOf req) req.parts =
      Except.error e) ∧
    (handler env req st now isoNow upMeta upResp whResp).status = 400 ∧
    (handler env req st now isoNow upMeta upResp whResp).uploadCalls = [] ∧
    (handler env req st now isoNow upMeta upResp whResp).webhookPayload
      = none := by
  obtain ⟨e, hpe⟩ := parseParts_error_of_oversize req.parts [] [] hbig
  have hparse : parseMultipartFormData (contentTypeOf req) req.parts =
      Except.error e := by
    simp [parseMultipartFormData, hct, hpe]
  have hm' : ¬ req.method = "OPTIONS" := by rw [hm]; decide
  refine ⟨⟨e, hparse⟩, ?_⟩
  simp [handler, hm, hm', hrl, hw, hs, hk, hparse]

theorem handler_oversize_attachment_witness :
    (handler demoEnv
      (demoReqOf (demoTextParts ++ [demoFinPart,
        ("pnl", PartValue.file "big.pdf" "application/pdf" 26214401 [])]))
      [] 0 "" demoMeta demoUpOk ⟨200, ""⟩).status = 400 ∧
    (handler demoEnv
      (demoReqOf (demoTextParts ++ [demoFinPart,
        ("pnl", PartValue.file "big.pdf" "application/pdf" 26214401 [])]))
      [] 0 "" demoMeta demoUpOk ⟨200, ""⟩).uploadCalls = [] :=
  have h := handler_oversize_attachment demoEnv
    (demoReqOf (demoTextParts ++ [demoFinPart,
      ("pnl", PartValue.file "big.pdf" "application/pdf" 26214401 [])]))
    [] 0 "" demoMeta demoUpOk ⟨200, ""⟩ rfl rfl rfl rfl rfl rfl
    ⟨"pnl", "big.pdf", "application/pdf", 26214401, [],
      by simp [demoReqOf, demoTextParts, demoFinPart], by decide⟩
  ⟨h.2.1, h.2.2.1⟩

theorem checkRateLimit_denied_frame_witness :
    assocGet (checkRateLimit 5 "1.2.3.4" [("1.2.3.4", ⟨10, 0⟩)]).2 "1.2.3.4" =
      assocGet [("1.2.3.4", RLEntry.mk 10 0)] "1.2.3.4" :=
  checkRateLimit_denied_frame 5 "1.2.3.4" [("1.2.3.4", ⟨10, 0⟩)]
    (by decide) (by decide)

/-! ## Sanitization lemmas (for C4) -/

theorem matchCIchar_lt_false {c : Char} (hc : ¬ c = '<') :
    matchCIchar '<' c = false := by
  have h60 : Char.toNat '<' = 60 := rfl
  simp [matchCIchar, h60, hc]

/-- On input without `<` the script-tag scan is the identity (a match needs
an opening `<`). -/
theorem scriptStripF_of_no_lt (fuel : Nat) (l : List Char)
    (h : ∀ c ∈ l, ¬ c = '<') : scriptStripF fuel l = l := by
  induction fuel generalizing l with
  | zero => rfl
  | succ fuel ih =>
    cases l with
    | nil => rfl
    | cons c cs =>
      have hc : ¬ c = '<' := h c (List.mem_cons_self c cs)
      have hop : matchesCI scriptOpenPat (c :: cs) = false := by
        simp [scriptOpenPat, matchesCI, matchCIchar_lt_false hc]
      simp [scriptStripF, hop,
        ih cs (fun d hd => h d (List.mem_cons_of_mem c hd))]

theorem scriptStrip_of_no_lt (l : List Char) (h : ∀ c ∈ l, ¬ c = '<') :
    scriptStrip l = l :=
  scriptStripF_of_no_lt l.length l h

theorem dropCloseTag_length_le :
    ∀ (l r : List Char), dropCloseTag l = some r → r.length ≤ l.length := by
  intro l
  induction l with
  | nil => intro r h; simp [dropCloseTag] at h
  | cons c cs ih =>
    intro r h
    by_cases hm : matchesCI scriptClosePat (c :: cs)
    · simp [dropCloseTag, hm] at h
      subst h
      simp
      omega
    · simp [dropCloseTag, hm] at h
      exact le_trans (ih r h) (by simp)

theorem scriptStripF_length_le (fuel : Nat) (l : List Char) :
    (scriptStripF fuel l).length ≤ l.length := by
  induction fuel generalizing l with
  | zero => simp [scriptStripF]
  | succ fuel ih =>
    cases l with
    | nil => simp [scriptStripF]
    | cons c cs =>
      simp only [scriptStripF]
      by_cases hcond : (matchesCI scriptOpenPat (c :: cs)
          && boundaryAfterScript (List.drop 7 (c :: cs))) = true
      · rw [if_pos hcond]
        cases hdc : dropCloseTag (List.drop 7 (c :: cs)) with
        | some rest =>
          calc (scriptStripF fuel rest).length ≤ rest.length := ih rest
            _ ≤ (List.drop 7 (c :: cs)).length :=
              dropCloseTag_length_le _ _ hdc
            _ ≤ (c :: cs).length := by simp; omega
        | none =>
          simp only [List.length_cons]
          exact Nat.succ_le_succ (ih cs)
      · rw [if_neg hcond]
        simp only [List.length_cons]
        exact Nat.succ_le_succ (ih cs)

theorem scriptStrip_length_le (l : List Char) :
    (scriptStrip l).length ≤ l.length :=
  scriptStripF_length_le l.length l

theorem dropWhile_length_le (p : Char → Bool) (l : List Char) :
    (List.dropWhile p l).length ≤ l.length := by
  obtain ⟨t, ht⟩ := List.dropWhile_suffix (l := l) p
  have h2 := congrArg List.length ht
  simp only [List.length_append] at h2
  omega

theorem dropWhile_self (p : Char → Bool) (l : List Char) :
    List.dropWhile p (List.dropWhile p l) = List.dropWhile p l := by
  induction l with
  | nil => rfl
  | cons c cs ih =>
    by_cases h : p c
    · simp [List.dropWhile_cons, h, ih]
    · simp [List.dropWhile_cons, h]

theorem dropWhile_head_false (p : Char → Bool) (l : List Char) {a : Char}
    {t : List Char} (h : List.dropWhile p l = a :: t) : p a = false := by
  induction l with
  | nil => simp [List.dropWhile] at h
  | cons c cs ih =>
    by_cases hc : p c
    · rw [List.dropWhile_cons_of_pos hc] at h
      exact ih h
    · rw [List.dropWhile_cons_of_neg hc] at h
      obtain ⟨h1, _⟩ := List.cons.injEq .. ▸ h
      rw [← h1]
      simp [hc]

/-- The front of a trimmed list is not whitespace (or the list is empty). -/
theorem trimChars_dropWhile (l : List Char) :
    List.dropWhile isJsWhitespace (trimChars l) = trimChars l := by
  cases ht : trimChars l with
  | nil => rfl
  | cons a t =>
    have hhead : isJsWhitespace a = false := by
      have hsuf := List.dropWhile_suffix (l := (List.dropWhile isJsWhitespace l).reverse) isJsWhitespace
      obtain ⟨u, hu⟩ := hsuf
      have hA : List.dropWhile isJsWhitespace l =
          (List.dropWhile isJsWhitespace
            (List.dropWhile isJsWhitespace l).reverse).reverse ++ u.reverse := by
        have := congrArg List.reverse hu
        simpa [List.reverse_append] using this.symm
      have ht' : List.dropWhile isJsWhitespace l = (a :: t) ++ u.reverse := by
        rw [hA]
        unfold trimChars at ht
        rw [ht]
      exact dropWhile_head_false isJsWhitespace l (by simpa using ht')
    rw [List.dropWhile_cons_of_neg (by simp [hhead])]

theorem trimChars_reverse_dropWhile (l : List Char) :
    List.dropWhile isJsWhitespace (trimChars l).reverse =
      (trimChars l).reverse := by
  unfold trimChars
  rw [List.reverse_reverse]
  exact dropWhile_self _ _

theorem trimChars_idem (l : List Char) :
    trimChars (trimChars l) = trimChars l := by
  conv_lhs => rw [trimChars]
  rw [trimChars_dropWhile, trimChars_reverse_dropWhile, List.reverse_reverse]

theorem mem_trimChars {c : Char} {l : List Char} (h : c ∈ trimChars l) :
    c ∈ l := by
  unfold trimChars at h
  rw [List.mem_reverse] at h
  have h2 := (List.dropWhile_suffix isJsWhitespace).subset h
  rw [List.mem_reverse] at h2
  exact (List.dropWhile_suffix isJsWhitespace).subset h2

theorem trimChars_length_le (l : List Char) :
    (trimChars l).length ≤ l.length := by
  unfold trimChars
  simp only [List.length_reverse]
  exact le_trans (dropWhile_length_le _ _)
    (by simpa using dropWhile_length_le isJsWhitespace l)

/-- Every character of the sanitizer output avoids both angle brackets. -/
theorem sanitizeChars_no_angle (l : List Char) :
    ∀ c ∈ sanitizeChars l, ¬ c = '<' ∧ ¬ c = '>' := by
  intro c hc
  unfold sanitizeChars at hc
  have h1 := mem_trimChars (List.take_subset _ _ hc)
  have h2 := List.mem_filter.mp h1
  simpa using h2.2

theorem sanitizeChars_length_le (l : List Char) :
    (sanitizeChars l).length ≤ l.length := by
  unfold sanitizeChars
  rw [List.length_take]
  exact le_trans (min_le_right _ _)
    (le_trans (trimChars_length_le _)
      (le_trans (List.length_filter_le _ _) (scriptStrip_length_le l)))

/-- Sanitization is idempotent on inputs that the 10000-character cap does
not truncate. -/
theorem sanitizeChars_idem_of_le (l : List Char) (h : l.length ≤ 10000) :
    sanitizeChars (sanitizeChars l) = sanitizeChars l := by
  have hlen : (trimChars (angleStrip (scriptStrip l))).length ≤ 10000 :=
    le_trans (trimChars_length_le _)
      (le_trans (List.length_filter_le _ _)
        (le_trans (scriptStrip_length_le l) h))
  have ht : sanitizeChars l = trimChars (angleStrip (scriptStrip l)) := by
    unfold sanitizeChars
    exact List.take_of_length_le hlen
  have hang : ∀ c ∈ sanitizeChars l, ¬ c = '<' ∧ ¬ c = '>' :=
    sanitizeChars_no_angle l
  have hs1 : scriptStrip (sanitizeChars l) = sanitizeChars l :=
    scriptStrip_of_no_lt _ (fun c hc => (hang c hc).1)
  have hs2 : angleStrip (sanitizeChars l) = sanitizeChars l := by
    unfold angleStrip
    refine List.filter_eq_self.mpr (fun c hc => ?_)
    have := hang c hc
    simp [this.1, this.2]
  have hs3 : trimChars (sanitizeChars l) = sanitizeChars l := by
    rw [ht]
    exact trimChars_idem _
  conv_lhs => rw [sanitizeChars]
  rw [hs1, hs2, hs3]
  exact List.take_of_length_le (le_trans (sanitizeChars_length_le l) h)

/-- The non-idempotence input: 10001 characters, so the cap cuts the final
`b` off and leaves the run of spaces exposed at the new end. -/
def sanitizeCexChars : List Char := 'a' :: (List.replicate 9999 ' ' ++ ['b'])

def sanitizeCex : String := String.mk sanitizeCexChars

theorem sanitizeCexChars_no_angle :
    ∀ c ∈ sanitizeCexChars, (!(c = '<' || c = '>')) = true := by
  intro c hc
  simp only [sanitizeCexChars, List.mem_cons, List.mem_append,
    List.mem_replicate, List.not_mem_nil, or_false] at hc
  rcases hc with h | ⟨_, h⟩ | h <;> subst h <;> decide

theorem sanitizeCexChars_reverse :
    sanitizeCexChars.reverse = 'b' :: (List.replicate 9999 ' ' ++ ['a']) := by
  simp only [sanitizeCexChars, List.reverse_cons, List.reverse_append,
    List.reverse_replicate, List.reverse_nil, List.nil_append,
    List.singleton_append, List.cons_append, List.append_assoc]

theorem sanitizeChars_cex_first :
    sanitizeChars sanitizeCexChars = 'a' :: List.replicate 9999 ' ' := by
  have hno : ∀ c ∈ sanitizeCexChars, ¬ c = '<' := by
    intro c hc
    have h := sanitizeCexChars_no_angle c hc
    simp only [Bool.not_eq_eq_eq_not, Bool.not_true, Bool.or_eq_false_iff,
      decide_eq_false_iff_not] at h
    exact h.1
  have h1 : scriptStrip sanitizeCexChars = sanitizeCexChars :=
    scriptStrip_of_no_lt _ hno
  have h2 : angleStrip sanitizeCexChars = sanitizeCexChars :=
    List.filter_eq_self.mpr sanitizeCexChars_no_angle
  have h3 : trimChars sanitizeCexChars = sanitizeCexChars := by
    unfold trimChars
    rw [show sanitizeCexChars = 'a' :: (List.replicate 9999 ' ' ++ ['b'])
      from rfl]
    rw [List.dropWhile_cons_of_neg (by decide)]
    rw [show ('a' :: (List.replicate 9999 ' ' ++ ['b'])).reverse =
      'b' :: (List.replicate 9999 ' ' ++ ['a']) from sanitizeCexChars_reverse]
    rw [List.dropWhile_cons_of_neg (by decide)]
    simp only [List.reverse_cons, List.reverse_append, List.reverse_replicate,
      List.reverse_nil, List.nil_append, List.singleton_append,
      List.cons_append, List.append_assoc]
  unfold sanitizeChars
  rw [h1, h2, h3]
  rw [show sanitizeCexChars = 'a' :: (List.replicate 9999 ' ' ++ ['b'])
    from rfl]
  rw [show (10000 : Nat) = 9999 + 1 by norm_num, List.take_succ_cons]
  rw [List.take_left' (by simp only [List.length_replicate])]

theorem dropWhile_replicate_append (p : Char → Bool) (a : Char)
    (h : p a = true) (n : Nat) (l : List Char) :
    List.dropWhile p (List.replicate n a ++ l) = List.dropWhile p l := by
  induction n with
  | zero => simp only [List.replicate_zero, List.nil_append]
  | succ n ih =>
    simp only [List.replicate_succ, List.cons_append,
      List.dropWhile_cons_of_pos h]
    exact ih

theorem sanitizeChars_cex_second :
    sanitizeChars ('a' :: List.replicate 9999 ' ') = ['a'] := by
  have hno : ∀ c ∈ ('a' :: List.replicate 9999 ' '), ¬ c = '<' := by
    intro c hc
    simp only [List.mem_cons, List.mem_replicate] at hc
    rcases hc with h | ⟨_, h⟩ <;> subst h <;> decide
  have h1 : scriptStrip ('a' :: List.replicate 9999 ' ') =
      'a' :: List.replicate 9999 ' ' := scriptStrip_of_no_lt _ hno
  have h2 : angleStrip ('a' :: List.replicate 9999 ' ') =
      'a' :: List.replicate 9999 ' ' := by
    refine List.filter_eq_self.mpr (fun c hc => ?_)
    simp only [List.mem_cons, List.mem_replicate] at hc
    rcases hc with h | ⟨_, h⟩ <;> subst h <;> decide
  have h3 : trimChars ('a' :: List.replicate 9999 ' ') = ['a'] := by
    unfold trimChars
    rw [List.dropWhile_cons_of_neg (by decide)]
    rw [show ('a' :: List.replicate 9999 ' ').reverse =
      List.replicate 9999 ' ' ++ ['a'] by
        simp only [List.reverse_cons, List.reverse_replicate]]
    rw [dropWhile_replicate_append _ _ (by decide)]
    rw [List.dropWhile_cons_of_neg (by decide)]
    simp only [List.reverse_cons, List.reverse_nil, List.nil_append]
  unfold sanitizeChars
  rw [h1, h2, h3]
  rfl

/-- C4 counterexample: sanitization is not idempotent.  On the 10001
character input `a` + 9999 spaces + `b` the first pass truncates to
`a` + 9999 spaces (trim happens before the cap), and the second pass trims
the now-trailing spaces down to `a`. -/
theorem sanitizeField_not_idempotent :
    sanitizeField (sanitizeField sanitizeCex) ≠ sanitizeField sanitizeCex := by
  have h1 : sanitizeField sanitizeCex =
      String.mk ('a' :: List.replicate 9999 ' ') := by
    unfold sanitizeField
    rw [show sanitizeCex.data = sanitizeCexChars from rfl,
      sanitizeChars_cex_first]
  have h2 : sanitizeField (sanitizeField sanitizeCex) = String.mk ['a'] := by
    rw [h1]
    unfold sanitizeField
    rw [show (String.mk ('a' :: List.replicate 9999 ' ')).data =
      'a' :: List.replicate 9999 ' ' from rfl, sanitizeChars_cex_second]
  rw [h2, h1]
  intro h
  have hdata : (['a'] : List Char) = 'a' :: List.replicate 9999 ' ' :=
    congrArg String.data h
  have hlen := congrArg List.length hdata
  simp only [List.length_cons, List.length_replicate, List.length_nil] at hlen
  omega

/-- C4 amended: sanitization (strip script blocks, strip angle brackets,
trim, cap at 10000) is idempotent on every input of length at most 10000 —
for longer inputs the cap can expose trailing whitespace that only a second
application trims — and its output never contains `<` or `>`, hence never a
`<script>` block (stripping script tags from the output is a no-op). -/
theorem sanitizeField_props :
    (∀ s : String, s.data.length ≤ 10000 →
      sanitizeField (sanitizeField s) = sanitizeField s) ∧
    (∀ s : String, ∀ c ∈ (sanitizeField s).data, ¬ c = '<' ∧ ¬ c = '>') ∧
    (∀ s : String,
      scriptStrip (sanitizeField s).data = (sanitizeField s).data) := by
  refine ⟨fun s h => ?_, fun s => ?_, fun s => ?_⟩
  · unfold sanitizeField
    rw [show (String.mk (sanitizeChars s.data)).data = sanitizeChars s.data
      from rfl]
    rw [sanitizeChars_idem_of_le s.data h]
  · intro c hc
    exact sanitizeChars_no_angle s.data c hc
  · exact scriptStrip_of_no_lt _
      (fun c hc => (sanitizeChars_no_angle s.data c hc).1)

theorem sanitizeField_props_witness :
    sanitizeField (sanitizeField "  Deal <b>Name</b>  ") =
      sanitizeField "  Deal <b>Name</b>  " :=
  sanitizeField_props.1 "  Deal <b>Name</b>  " (by decide)

/-! ## Storage path lemmas (for C5) -/

theorem randomHexId_length (bytes : List Nat) :
    (randomHexId bytes).data.length = 2 * bytes.length := by
  show ((bytes.map byteToHex).flatten).length = 2 * bytes.length
  induction bytes with
  | nil => rfl
  | cons b rest ih =>
    simp only [List.map_cons, List.flatten_cons, List.length_append, ih,
      byteToHex, List.length_cons, List.length_nil, List.length_cons]
    omega

theorem hexDigitChar_range :
    ∀ n : Nat, n < 16 → (48 ≤ (hexDigitChar n).toNat ∧ (hexDigitChar n).toNat ≤ 57) ∨
      (97 ≤ (hexDigitChar n).toNat ∧ (hexDigitChar n).toNat ≤ 102) := by
  decide

/-- C5 counterexample: the filename sanitizer replaces each disallowed
character by an underscore, which is not in the claimed character set
letters/digits/dot/hyphen; the space of `my file.pdf` becomes `_`. -/
theorem sanitizeFileName_underscore :
    sanitizeFileName "my file.pdf" = "my_file.pdf" ∧
    ¬ (∀ c ∈ (sanitizeFileName "my file.pdf").data, isFileNameChar c = true) := by
  constructor
  · rfl
  · decide

/-- C5 amended: `uploadToSupabase` builds the storage path
`uploads/<epoch-ms>-<16 lowercase hex characters>-<sanitized filename>`,
where the sanitized filename consists of characters from the set
letters/digits/dot/hyphen **or the replacement underscore** and is truncated
to at most 100 characters. -/
theorem storagePath_spec (ts : Nat) (bytes : List Nat) (f : String)
    (hb : bytes.length = 8) (hv : ∀ b ∈ bytes, b < 256) :
    storagePath ts bytes f = "uploads/" ++ toString ts ++ "-" ++
      randomHexId bytes ++ "-" ++ sanitizeFileName f ∧
    (randomHexId bytes).data.length = 16 ∧
    (∀ c ∈ (randomHexId bytes).data,
      (48 ≤ c.toNat ∧ c.toNat ≤ 57) ∨ (97 ≤ c.toNat ∧ c.toNat ≤ 102)) ∧
    (∀ c ∈ (sanitizeFileName f).data, isFileNameChar c = true ∨ c = '_') ∧
    (sanitizeFileName f).data.length ≤ 100 := by
  refine ⟨rfl, by rw [randomHexId_length, hb], fun c hc => ?_, fun c hc => ?_, ?_⟩
  · have hc' : c ∈ (bytes.map byteToHex).flatten := hc
    obtain ⟨chunk, hchunk, hcc⟩ := List.mem_flatten.mp hc'
    obtain ⟨b, hb2, hbeq⟩ := List.mem_map.mp hchunk
    subst hbeq
    have hblt := hv b hb2
    simp only [byteToHex, List.mem_cons, List.not_mem_nil, or_false] at hcc
    rcases hcc with h | h <;> subst h
    · exact hexDigitChar_range (b / 16) (Nat.div_lt_of_lt_mul (by omega))
    · exact hexDigitChar_range (b % 16) (Nat.mod_lt b (by omega))
  · have hc' : c ∈ (f.data.map
        (fun c => if isFileNameChar c then c else '_')).take 100 := hc
    have hc2 := List.take_subset _ _ hc'
    obtain ⟨d, _, hdeq⟩ := List.mem_map.mp hc2
    by_cases hd : isFileNameChar d
    · left
      rw [← hdeq]
      simp [hd]
    · right
      rw [← hdeq]
      simp [hd]
  · show ((f.data.map _).take 100).length ≤ 100
    rw [List.length_take]
    exact min_le_left _ _

theorem storagePath_spec_witness :
    (randomHexId [0, 17, 34, 51, 68, 85, 102, 255]).data.length = 16 ∧
    (∀ c ∈ (sanitizeFileName "a b.pdf").data,
      isFileNameChar c = true ∨ c = '_') :=
  have h := storagePath_spec 1700000000000 [0, 17, 34, 51, 68, 85, 102, 255]
    "a b.pdf" (by decide) (by decide)
  ⟨h.2.1, h.2.2.2.1⟩

/-! ## CORS lemmas (for C6) -/

theorem startsWithChars_iff (nd : List Char) :
    ∀ l : List Char, startsWithChars nd l = true ↔ ∃ r, l = nd ++ r := by
  induction nd with
  | nil =>
    intro l
    simp [startsWithChars]
  | cons a as ih =>
    intro l
    cases l with
    | nil =>
      simp [startsWithChars]
    | cons b bs =>
      simp only [startsWithChars, Bool.and_eq_true, decide_eq_true_eq, ih,
        List.cons_append, List.cons.injEq]
      constructor
      · rintro ⟨h1, r, h2⟩
        exact ⟨r, h1.symm, h2⟩
      · rintro ⟨r, h1, h2⟩
        exact ⟨h1.symm, r, h2⟩

theorem containsSubChars_iff (nd : List Char) :
    ∀ hay : List Char, containsSubChars nd hay = true ↔
      ∃ l r, hay = l ++ nd ++ r := by
  intro hay
  induction hay with
  | nil =>
    cases nd with
    | nil => simp [containsSubChars]
    | cons a as =>
      simp only [containsSubChars, List.isEmpty_cons]
      constructor
      · intro h
        simp at h
      · rintro ⟨l, r, h⟩
        exact absurd (congrArg List.length h) (by simp; omega)
  | cons c cs ih =>
    simp only [containsSubChars, Bool.or_eq_true, startsWithChars_iff, ih]
    constructor
    · rintro (⟨r, h⟩ | ⟨l, r, h⟩)
      · exact ⟨[], r, by simp [h]⟩
      · exact ⟨c :: l, r, by simp [h]⟩
    · rintro ⟨l, r, h⟩
      cases l with
      | nil =>
        left
        exact ⟨r, by simpa using h⟩
      | cons x xs =>
        right
        rw [List.cons_append, List.cons_append, List.cons.injEq] at h
        exact ⟨xs, r, h.2⟩

/-- Modelled from the claim's wording: the origin has the hosting platform's
preview-domain pattern `vercel.app` as a suffix. -/
def endsWithChars (tail l : List Char) : Bool :=
  startsWithChars tail.reverse l.reverse

/-- Modelled from the claim's wording: echo the origin exactly when it is an
exact member of the allow-list or has the preview-domain pattern as a
suffix; otherwise the first configured origin, or `*` when no origins are
configured. -/
def corsOriginClaimed (cfg : List String) (origin : String) : String :=
  if cfg.contains origin || endsWithChars "vercel.app".data origin.data then
    origin
  else
    match cfg with
    | [] => "*"
    | a :: _ => a

/-- C6 counterexample: the code tests `origin.includes('vercel.app')`
(substring), not a suffix, and treats an empty allow-list as allow-all.  For
the origin `https://vercel.app.evil.com` (which merely contains the pattern)
and allow-list `[https://app.example.com]`, the code echoes the origin while
the claim's rule returns the first configured origin. -/
theorem getCorsHeaders_claim_counterexample :
    assocGet (getCorsHeaders ["https://app.example.com"]
        "https://vercel.app.evil.com") "Access-Control-Allow-Origin" =
      some "https://vercel.app.evil.com" ∧
    corsOriginClaimed ["https://app.example.com"]
        "https://vercel.app.evil.com" = "https://app.example.com" ∧
    ¬ ("https://vercel.app.evil.com" = "https://app.example.com" :
      Prop) := by
  refine ⟨by decide, by decide, by decide⟩

/-- C6 amended: `includes` is substring containment, and the allow-origin
header echoes the request origin exactly when the allow-list is empty, the
origin is an exact member, or the origin contains `vercel.app` anywhere as a
substring; otherwise it is the first configured origin (falling back to `*`
only for a falsy first entry).  Every terminal response of the handler
carries all the computed CORS headers. -/
theorem cors_headers_spec :
    (∀ nd hay : String, strIncludes hay nd = true ↔
      ∃ l r, hay.data = l ++ nd.data ++ r) ∧
    (∀ (cfg : List String) (origin : String),
      assocGet (getCorsHeaders cfg origin) "Access-Control-Allow-Origin" =
        some (if cfg.isEmpty || cfg.contains origin
            || strIncludes origin "vercel.app" then origin
          else match cfg with
            | [] => "*"
            | a :: _ => if a = "" then "*" else a)) ∧
    (∀ (env : Env) (req : Request) (st : RLStore) (now : Int)
        (isoNow : String) (upMeta : Nat → Nat × List Nat)
        (upResp : Nat → FetchResp) (whResp : FetchResp),
      ∀ kv ∈ getCorsHeaders env.allowedOrigins (originOf req),
        kv ∈ (handler env req st now isoNow upMeta upResp whResp).headers) := by
  refine ⟨fun nd hay => containsSubChars_iff nd.data hay.data,
    fun cfg origin => ?_, ?_⟩
  · simp [getCorsHeaders, assocGet]
  · intro env req st now isoNow upMeta upResp whResp kv hkv
    simp only [handler]
    repeat' split
    all_goals
      first
        | exact hkv
        | exact List.mem_append_left _ hkv

theorem cors_headers_spec_witness :
    ("Access-Control-Max-Age", "86400") ∈
      (handler demoEnv (demoReqOf demoTextParts) [] 0 "" demoMeta demoUpOk
        ⟨200, ""⟩).headers :=
  cors_headers_spec.2.2 demoEnv (demoReqOf demoTextParts) [] 0 "" demoMeta
    demoUpOk ⟨200, ""⟩ ("Access-Control-Max-Age", "86400") (by decide)

/-! ## Success-path lemmas (for C7 and C9) -/

theorem uploadAll_ok (su bucket : String) (meta : Nat → Nat × List Nat)
    (resp : Nat → FetchResp) (hok : ∀ i, fetchOk (resp i) = true)
    (files : List FileRec) :
    ∀ i : Nat, uploadAll su bucket meta resp i files =
      (files, Except.ok (expectedUploads su bucket meta i files)) := by
  induction files with
  | nil => intro i; rfl
  | cons f rest ih =>
    intro i
    simp only [uploadAll, uploadToSupabase, hok i, if_true, ih (i + 1),
      expectedUploads]

theorem expectedUploads_length (su bucket : String)
    (meta : Nat → Nat × List Nat) (files : List FileRec) :
    ∀ i : Nat, (expectedUploads su bucket meta i files).length =
      files.length := by
  induction files with
  | nil => intro i; rfl
  | cons f rest ih =>
    intro i
    simp only [expectedUploads, List.length_cons, ih (i + 1)]

/-- Under passing gates, valid fields, a present `financialInfo` attachment
and all storage calls succeeding, the handler uploads every file, builds the
payload from the expected upload results, relays it, and answers `200` or
`502` by the webhook response alone. -/
theorem handler_success_shape (env : Env) (req : Request) (st : RLStore)
    (now : Int) (isoNow : String) (upMeta : Nat → Nat × List Nat)
    (upResp : Nat → FetchResp) (whResp : FetchResp)
    (fields : List (String × String)) (files : List FileRec)
    (hm : req.method = "POST")
    (hrl : (checkRateLimit now (clientIpOf req.xForwardedFor req.xRealIp)
      st).1.allowed = true)
    (hw : strFalsyOpt env.webhookUrl = false)
    (hs : strFalsyOpt env.supabaseUrl = false)
    (hk : strFalsyOpt env.supabaseServiceKey = false)
    (hp : parseMultipartFormData (contentTypeOf req) req.parts =
      Except.ok (fields, files))
    (hval : (validateFormData fields).1 = [])
    (hfin : (files.any fun f => f.fieldname = "financialInfo") = true)
    (hup : ∀ i, fetchOk (upResp i) = true) :
    handler env req st now isoNow upMeta upResp whResp =
      (if fetchOk whResp then
        ⟨200, some jsonSuccess,
         getCorsHeaders env.allowedOrigins (originOf req) ++
           [("X-RateLimit-Remaining",
             toString (checkRateLimit now
               (clientIpOf req.xForwardedFor req.xRealIp) st).1.remaining)],
         (checkRateLimit now (clientIpOf req.xForwardedFor req.xRealIp) st).2,
         files,
         some (webhookPayloadOf (validateFormData fields).2 isoNow
           (clientIpOf req.xForwardedFor req.xRealIp)
           (expectedUploads (jsTemplate env.supabaseUrl) (bucketOf env)
             upMeta 0 files))⟩
      else
        ⟨502, some (jsonErr "Failed to process submission. Please try again."),
         getCorsHeaders env.allowedOrigins (originOf req),
         (checkRateLimit now (clientIpOf req.xForwardedFor req.xRealIp) st).2,
         files,
         some (webhookPayloadOf (validateFormData fields).2 isoNow
           (clientIpOf req.xForwardedFor req.xRealIp)
           (expectedUploads (jsTemplate env.supabaseUrl) (bucketOf env)
             upMeta 0 files))⟩) := by
  have hm' : ¬ req.method = "OPTIONS" := by rw [hm]; decide
  simp [handler, hm, hm', hrl, hw, hs, hk, hp, hval, hfin,
    uploadAll_ok _ _ _ _ hup files 0]

/-- C7: when every upload succeeds but the webhook answers non-2xx, the
handler returns `502` with `success=false` and a fixed generic message, and
the webhook's own response body never influences (so never appears in) the
handler's response. -/
theorem handler_webhook_failure (env : Env) (req : Request) (st : RLStore)
    (now : Int) (isoNow : String) (upMeta : Nat → Nat × List Nat)
    (upResp : Nat → FetchResp) (whResp : FetchResp)
    (fields : List (String × String)) (files : List FileRec)
    (hm : req.method = "POST")
    (hrl : (checkRateLimit now (clientIpOf req.xForwardedFor req.xRealIp)
      st).1.allowed = true)
    (hw : strFalsyOpt env.webhookUrl = false)
    (hs : strFalsyOpt env.supabaseUrl = false)
    (hk : strFalsyOpt env.supabaseServiceKey = false)
    (hp : parseMultipartFormData (contentTypeOf req) req.parts =
      Except.ok (fields, files))
    (hval : (validateFormData fields).1 = [])
    (hfin : (files.any fun f => f.fieldname = "financialInfo") = true)
    (hup : ∀ i, fetchOk (upResp i) = true)
    (hwh : fetchOk whResp = false) :
    (handler env req st now isoNow upMeta upResp whResp).status = 502 ∧
    (handler env req st now isoNow upMeta upResp whResp).body =
      some (jsonErr "Failed to process submission. Please try again.") ∧
    ∀ b : String,
      handler env req st now isoNow upMeta upResp ⟨whResp.status, b⟩ =
        handler env req st now isoNow upMeta upResp whResp := by
  have hshape := handler_success_shape env req st now isoNow upMeta upResp
    whResp fields files hm hrl hw hs hk hp hval hfin hup
  refine ⟨by rw [hshape]; simp [hwh], by rw [hshape]; simp [hwh], fun b => ?_⟩
  have hshape2 := handler_success_shape env req st now isoNow upMeta upResp
    ⟨whResp.status, b⟩ fields files hm hrl hw hs hk hp hval hfin hup
  rw [hshape, hshape2]
  cases whResp
  rfl

theorem handler_webhook_failure_witness :
    (handler demoEnv (demoReqOf (demoTextParts ++ [demoFinPart])) [] 0
      "2026-10-11T00:00:00.000Z" demoMeta demoUpOk ⟨503, "upstream down"⟩).status
      = 502 :=
  (handler_webhook_failure demoEnv (demoReqOf (demoTextParts ++ [demoFinPart]))
    [] 0 "2026-10-11T00:00:00.000Z" demoMeta demoUpOk ⟨503, "upstream down"⟩
    _ _ rfl rfl rfl rfl rfl rfl rfl rfl (fun _ => rfl) rfl).1

/-! ## Payload lemmas (for C9) -/

theorem assocGet_assocSet_same {α : Type} (m : List (String × α)) (k : String)
    (v : α) : assocGet (assocSet m k v) k = some v := by
  induction m with
  | nil => simp [assocSet, assocGet]
  | cons p rest ih =>
    obtain ⟨k', v'⟩ := p
    by_cases h : k' = k
    · simp [assocSet, assocGet, h]
    · simp [assocSet, assocGet, h, ih]

theorem assocGet_assocSet_other {α : Type} (m : List (String × α))
    (k k' : String) (v : α) (h : ¬ k' = k) :
    assocGet (assocSet m k' v) k = assocGet m k := by
  induction m with
  | nil => simp [assocSet, assocGet, h]
  | cons p rest ih =>
    obtain ⟨k2, v2⟩ := p
    have h' : ¬ k = k' := fun he => h he.symm
    by_cases h2 : k2 = k'
    · subst h2
      simp [assocSet, assocGet, h]
    · by_cases h3 : k2 = k
      · simp [assocSet, assocGet, h2, h3, h']
      · simp [assocSet, assocGet, h2, h3, ih]

theorem mem_keys_assocSet {α : Type} (m : List (String × α)) (k x : String)
    (v : α) :
    x ∈ (assocSet m k v).map Prod.fst ↔ x ∈ m.map Prod.fst ∨ x = k := by
  induction m with
  | nil => simp [assocSet]
  | cons p rest ih =>
    obtain ⟨k', v'⟩ := p
    by_cases h : k' = k
    · subst h
      have hset : assocSet ((k', v') :: rest) k' v = (k', v) :: rest := by
        simp [assocSet]
      rw [hset]
      simp only [List.map_cons, List.mem_cons]
      tauto
    · have hset : assocSet ((k', v') :: rest) k v =
          (k', v') :: assocSet rest k v := by
        simp [assocSet, h]
      rw [hset]
      simp only [List.map_cons, List.mem_cons, ih]
      tauto

theorem assocSet_keys_nodup {α : Type} (m : List (String × α)) (k : String)
    (v : α) (h : (m.map Prod.fst).Nodup) :
    ((assocSet m k v).map Prod.fst).Nodup := by
  induction m with
  | nil => simp [assocSet]
  | cons p rest ih =>
    obtain ⟨k', v'⟩ := p
    simp only [List.map_cons, List.nodup_cons] at h
    by_cases hk : k' = k
    · subst hk
      have hset : assocSet ((k', v') :: rest) k' v = (k', v) :: rest := by
        simp [assocSet]
      rw [hset]
      simp only [List.map_cons, List.nodup_cons]
      exact ⟨h.1, h.2⟩
    · have hset : assocSet ((k', v') :: rest) k v =
          (k', v') :: assocSet rest k v := by
        simp [assocSet, hk]
      rw [hset]
      simp only [List.map_cons, List.nodup_cons]
      refine ⟨?_, ih h.2⟩
      rw [mem_keys_assocSet]
      rintro (hh | hh)
      · exact h.1 hh
      · exact hk hh

theorem filesObject_keys_nodup (ufs : List UploadResult) :
    ((filesObject ufs).map Prod.fst).Nodup := by
  suffices h : ∀ acc : List (String × Json), (acc.map Prod.fst).Nodup →
      (((ufs.foldl (fun acc f => assocSet acc f.category (fileEntryJson f))
        acc)).map Prod.fst).Nodup from h [] (by simp)
  induction ufs with
  | nil => intro acc h; simpa using h
  | cons f rest ih =>
    intro acc h
    simp only [List.foldl_cons]
    exact ih _ (assocSet_keys_nodup _ _ _ h)

/-- Lookup in the reduce-built `files` object: per category the last upload
of that category wins, and a category never uploaded falls back to the
accumulator. -/
theorem filesObject_foldl_get (cat : String) (ufs : List UploadResult) :
    ∀ acc : List (String × Json),
      assocGet (ufs.foldl
        (fun acc f => assocSet acc f.category (fileEntryJson f)) acc) cat =
      (match (ufs.filter (fun r => r.category = cat)).getLast? with
       | none => assocGet acc cat
       | some r => some (fileEntryJson r)) := by
  induction ufs with
  | nil => intro acc; rfl
  | cons f rest ih =>
    intro acc
    simp only [List.foldl_cons]
    rw [ih]
    by_cases hcat : f.category = cat
    · rw [show ((f :: rest).filter fun r => r.category = cat) =
        f :: (rest.filter fun r => r.category = cat) by
          simp [List.filter_cons, hcat]]
      cases hfl : rest.filter (fun r => r.category = cat) with
      | nil =>
        show assocGet (assocSet acc f.category (fileEntryJson f)) cat =
          some (fileEntryJson f)
        rw [← hcat]
        exact assocGet_assocSet_same _ _ _
      | cons x xs =>
        rw [List.getLast?_cons_cons]
        cases hgl : (x :: xs).getLast? with
        | none => simp at hgl
        | some r => rfl
    · rw [show ((f :: rest).filter fun r => r.category = cat) =
        (rest.filter fun r => r.category = cat) by
          simp [List.filter_cons, hcat]]
      cases hfr : (rest.filter (fun r => r.category = cat)).getLast? with
      | some r => rfl
      | none =>
        show assocGet (assocSet acc f.category (fileEntryJson f)) cat =
          assocGet acc cat
        exact assocGet_assocSet_other _ _ _ _ hcat

theorem webhookPayloadOf_lookups (sb : List (String × String))
    (isoNow ip : String) (ufs : List UploadResult) :
    jsonObjGet (webhookPayloadOf sb isoNow ip ufs) "files" =
      some (Json.obj (filesObject ufs)) ∧
    jsonObjGet (webhookPayloadOf sb isoNow ip ufs) "fileUrls" =
      some (Json.arr (ufs.map (fun f => Json.str f.url))) := by
  simp only [webhookPayloadOf, jsonObjGet]
  constructor
  · rw [assocGet_assocSet_other _ _ _ _ (by decide)]
    exact assocGet_assocSet_same _ _ _
  · exact assocGet_assocSet_same _ _ _

/-- C9: when several attachments share a category field name and every
upload succeeds, the handler uploads all of them (one storage call per
file, in order), every resulting URL appears in the payload's `fileUrls`
array, but the payload's `files` map keeps at most one entry per category —
the last uploaded attachment of each category, which overwrites the
earlier ones. -/
theorem handler_duplicate_category_payload (env : Env) (req : Request)
    (st : RLStore) (now : Int) (isoNow : String)
    (upMeta : Nat → Nat × List Nat) (upResp : Nat → FetchResp)
    (whResp : FetchResp) (fields : List (String × String))
    (files : List FileRec)
    (hm : req.method = "POST")
    (hrl : (checkRateLimit now (clientIpOf req.xForwardedFor req.xRealIp)
      st).1.allowed = true)
    (hw : strFalsyOpt env.webhookUrl = false)
    (hs : strFalsyOpt env.supabaseUrl = false)
    (hk : strFalsyOpt env.supabaseServiceKey = false)
    (hp : parseMultipartFormData (contentTypeOf req) req.parts =
      Except.ok (fields, files))
    (hval : (validateFormData fields).1 = [])
    (hfin : (files.any fun f => f.fieldname = "financialInfo") = true)
    (hup : ∀ i, fetchOk (upResp i) = true) :
    (handler env req st now isoNow upMeta upResp whResp).uploadCalls
      = files ∧
    (handler env req st now isoNow upMeta upResp whResp).webhookPayload =
      some (webhookPayloadOf (validateFormData fields).2 isoNow
        (clientIpOf req.xForwardedFor req.xRealIp)
        (expectedUploads (jsTemplate env.supabaseUrl) (bucketOf env)
          upMeta 0 files)) ∧
    (expectedUploads (jsTemplate env.supabaseUrl) (bucketOf env)
      upMeta 0 files).length = files.length ∧
    jsonObjGet (webhookPayloadOf (validateFormData fields).2 isoNow
        (clientIpOf req.xForwardedFor req.xRealIp)
        (expectedUploads (jsTemplate env.supabaseUrl) (bucketOf env)
          upMeta 0 files)) "fileUrls" =
      some (Json.arr ((expectedUploads (jsTemplate env.supabaseUrl)
        (bucketOf env) upMeta 0 files).map (fun f => Json.str f.url))) ∧
    (∀ r ∈ expectedUploads (jsTemplate env.supabaseUrl) (bucketOf env)
        upMeta 0 files,
      Json.str r.url ∈ (expectedUploads (jsTemplate env.supabaseUrl)
        (bucketOf env) upMeta 0 files).map (fun f => Json.str f.url)) ∧
    jsonObjGet (webhookPayloadOf (validateFormData fields).2 isoNow
        (clientIpOf req.xForwardedFor req.xRealIp)
        (expectedUploads (jsTemplate env.supabaseUrl) (bucketOf env)
          upMeta 0 files)) "files" =
      some (Json.obj (filesObject (expectedUploads (jsTemplate env.supabaseUrl)
        (bucketOf env) upMeta 0 files))) ∧
    ((filesObject (expectedUploads (jsTemplate env.supabaseUrl) (bucketOf env)
      upMeta 0 files)).map Prod.fst).Nodup ∧
    (∀ cat : String,
      assocGet (filesObject (expectedUploads (jsTemplate env.supabaseUrl)
        (bucketOf env) upMeta 0 files)) cat =
      Option.map fileEntryJson
        (((expectedUploads (jsTemplate env.supabaseUrl) (bucketOf env)
          upMeta 0 files).filter (fun r => r.category = cat)).getLast?)) := by
  have hshape := handler_success_shape env req st now isoNow upMeta upResp
    whResp fields files hm hrl hw hs hk hp hval hfin hup
  refine ⟨?_, ?_, expectedUploads_length _ _ _ _ 0,
    (webhookPayloadOf_lookups _ _ _ _).2, fun r hr => List.mem_map_of_mem _ hr,
    (webhookPayloadOf_lookups _ _ _ _).1, filesObject_keys_nodup _, fun cat => ?_⟩
  · rw [hshape]
    by_cases hok : fetchOk whResp = true
    · simp [hok]
    · simp [Bool.eq_false_iff.mpr hok]
  · rw [hshape]
    by_cases hok : fetchOk whResp = true
    · simp [hok]
    · simp [Bool.eq_false_iff.mpr hok]
  · rw [show filesObject (expectedUploads (jsTemplate env.supabaseUrl)
      (bucketOf env) upMeta 0 files) =
        (expectedUploads (jsTemplate env.supabaseUrl) (bucketOf env)
          upMeta 0 files).foldl
          (fun acc f => assocSet acc f.category (fileEntryJson f)) []
      from rfl]
    rw [filesObject_foldl_get]
    cases ((expectedUploads (jsTemplate env.supabaseUrl) (bucketOf env)
        upMeta 0 files).filter (fun r => r.category = cat)).getLast? with
    | none => rfl
    | some r => rfl

theorem handler_duplicate_category_payload_witness :
    (handler demoEnv
      (demoReqOf (demoTextParts ++ [demoFinPart,
        ("pnl", PartValue.file "p1.pdf" "application/pdf" 10 [4]),
        ("pnl", PartValue.file "p2.pdf" "application/pdf" 20 [5])]))
      [] 0 "2026-10-11T00:00:00.000Z" demoMeta demoUpOk ⟨200, "ok"⟩).uploadCalls
      = [⟨"financialInfo", "fin.pdf", "application/pdf", 1000, [1, 2, 3]⟩,
         ⟨"pnl", "p1.pdf", "application/pdf", 10, [4]⟩,
         ⟨"pnl", "p2.pdf", "application/pdf", 20, [5]⟩] :=
  (handler_duplicate_category_payload demoEnv
    (demoReqOf (demoTextParts ++ [demoFinPart,
      ("pnl", PartValue.file "p1.pdf" "application/pdf" 10 [4]),
      ("pnl", PartValue.file "p2.pdf" "application/pdf" 20 [5])]))
    [] 0 "2026-10-11T00:00:00.000Z" demoMeta demoUpOk ⟨200, "ok"⟩
    _ _ rfl rfl rfl rfl rfl rfl rfl rfl (fun _ => rfl)).1

/-! ## Rate-limit window lemmas (for C1) -/

/-- `checkRateLimit` on a store holding only the caller's entry. -/
theorem checkRateLimit_singleton (now : Int) (ip : String) (c : Nat)
    (τ : Int) :
    checkRateLimit now ip [(ip, ⟨c, τ⟩)] =
      if τ < now - RATE_LIMIT_WINDOW_MS then
        (⟨true, RATE_LIMIT_MAX_REQUESTS - 1⟩, [(ip, ⟨1, now⟩)])
      else if RATE_LIMIT_MAX_REQUESTS ≤ c then
        (⟨false, 0⟩, [(ip, ⟨c, τ⟩)])
      else
        (⟨true, RATE_LIMIT_MAX_REQUESTS - (c + 1)⟩,
         [(ip, ⟨c + 1, τ⟩)]) := by
  by_cases hexp : τ < now - RATE_LIMIT_WINDOW_MS
  · have h1 : ¬ (now - RATE_LIMIT_WINDOW_MS ≤ τ) := not_le.mpr hexp
    have h2 : ¬ (now ≤ τ + RATE_LIMIT_WINDOW_MS) := by omega
    simp [checkRateLimit, h1, h2, hexp, assocGet, assocSet]
  · have h1 : now - RATE_LIMIT_WINDOW_MS ≤ τ := not_lt.mp hexp
    have h2 : now ≤ τ + RATE_LIMIT_WINDOW_MS := by omega
    by_cases hc : RATE_LIMIT_MAX_REQUESTS ≤ c
    · simp [checkRateLimit, h1, h2, hexp, hc, assocGet, assocSet]
    · simp [checkRateLimit, h1, h2, hexp, hc, assocGet, assocSet]

theorem runChecks_length (ip : String) :
    ∀ (ts : List Int) (st : RLStore),
      (runChecks ip st ts).length = ts.length := by
  intro ts
  induction ts with
  | nil => intro st; rfl
  | cons t ts ih =>
    intro st
    simp only [runChecks, List.length_cons, ih]

/-- If the current entry together with the near future never packs more than
the limit into one window (hypothesis `H`), and the future by itself
respects the rolling-window bound (hypothesis `G`), every further check is
allowed. -/
theorem runChecks_allowed_aux (ip : String) :
    ∀ (ts : List Int) (c : Nat) (τ : Int),
      1 ≤ c → c ≤ RATE_LIMIT_MAX_REQUESTS →
      (∀ k, k < ts.length → ts.getD k 0 ≤ τ + RATE_LIMIT_WINDOW_MS →
        c + k + 1 ≤ RATE_LIMIT_MAX_REQUESTS) →
      (∀ j, j < ts.length → ∀ i, i ≤ j →
        ts.getD j 0 - ts.getD i 0 ≤ RATE_LIMIT_WINDOW_MS →
        j - i + 1 ≤ RATE_LIMIT_MAX_REQUESTS) →
      ∀ r ∈ runChecks ip [(ip, ⟨c, τ⟩)] ts, r.allowed = true := by
  intro ts
  induction ts with
  | nil =>
    intro c τ _ _ _ _ r hr
    simp [runChecks] at hr
  | cons t ts ih =>
    intro c τ hc1 hc10 H G r hr
    have hM : RATE_LIMIT_MAX_REQUESTS = 10 := rfl
    simp only [runChecks, checkRateLimit_singleton] at hr
    by_cases hexp : τ < t - RATE_LIMIT_WINDOW_MS
    · rw [if_pos hexp] at hr
      rcases List.mem_cons.mp hr with h1 | h1
      · rw [h1]
      · refine ih 1 t le_rfl (by omega) (fun k hk hle => ?_)
          (fun j hj i hij hle => ?_) r h1
        · have hG := G (k + 1)
            (by simp only [List.length_cons]; exact Nat.succ_lt_succ hk) 0
            (Nat.zero_le _)
            (by simp only [List.getD_cons_succ, List.getD_cons_zero]; omega)
          omega
        · have hG := G (j + 1)
            (by simp only [List.length_cons]; exact Nat.succ_lt_succ hj)
            (i + 1) (Nat.succ_le_succ hij)
            (by simp only [List.getD_cons_succ]; exact hle)
          omega
    · have ht : t ≤ τ + RATE_LIMIT_WINDOW_MS := by omega
      have hcnt : c + 0 + 1 ≤ RATE_LIMIT_MAX_REQUESTS :=
        H 0 (by simp) (by simp only [List.getD_cons_zero]; exact ht)
      have hc : ¬ (RATE_LIMIT_MAX_REQUESTS ≤ c) := by omega
      rw [if_neg hexp, if_neg hc] at hr
      rcases List.mem_cons.mp hr with h1 | h1
      · rw [h1]
      · refine ih (c + 1) τ (by omega) (by omega) (fun k hk hle => ?_)
          (fun j hj i hij hle => ?_) r h1
        · have hH := H (k + 1)
            (by simp only [List.length_cons]; exact Nat.succ_lt_succ hk)
            (by simp only [List.getD_cons_succ]; exact hle)
          omega
        · have hG := G (j + 1)
            (by simp only [List.length_cons]; exact Nat.succ_lt_succ hj)
            (i + 1) (Nat.succ_le_succ hij)
            (by simp only [List.getD_cons_succ]; exact hle)
          omega

/-- With a current count of `c`, `11 - c` further checks all inside the
current entry's window end in a denial with `remaining = 0`. -/
theorem runChecks_denies_aux (ip : String) :
    ∀ (ts : List Int) (c : Nat) (τ : Int),
      1 ≤ c → c ≤ RATE_LIMIT_MAX_REQUESTS →
      c + ts.length = RATE_LIMIT_MAX_REQUESTS + 1 →
      (∀ u ∈ ts, u ≤ τ + RATE_LIMIT_WINDOW_MS) →
      (runChecks ip [(ip, ⟨c, τ⟩)] ts).getLast? = some ⟨false, 0⟩ := by
  intro ts
  induction ts with
  | nil =>
    intro c τ hc1 hc10 hsum hwin
    have hM : RATE_LIMIT_MAX_REQUESTS = 10 := rfl
    simp only [List.length_nil] at hsum
    omega
  | cons t ts ih =>
    intro c τ hc1 hc10 hsum hwin
    have hM : RATE_LIMIT_MAX_REQUESTS = 10 := rfl
    have ht : t ≤ τ + RATE_LIMIT_WINDOW_MS :=
      hwin t (List.mem_cons_self t ts)
    have hexp : ¬ (τ < t - RATE_LIMIT_WINDOW_MS) := by omega
    simp only [runChecks, checkRateLimit_singleton, if_neg hexp,
      List.length_cons] at hsum ⊢
    by_cases hc : RATE_LIMIT_MAX_REQUESTS ≤ c
    · have hts : ts = [] := by
        have : ts.length = 0 := by omega
        exact List.eq_nil_of_length_eq_zero this
      subst hts
      rw [if_pos hc]
      rfl
    · rw [if_neg hc]
      have hrec := ih (c + 1) τ (by omega) (by omega) (by omega)
        (fun u hu => hwin u (List.mem_cons_of_mem t hu))
      have hne : runChecks ip [(ip, ⟨c + 1, τ⟩)] ts ≠ [] := by
        intro he
        have hl := runChecks_length ip ts [(ip, ⟨c + 1, τ⟩)]
        rw [he] at hl
        simp at hl
        omega
      cases hrc : runChecks ip [(ip, ⟨c + 1, τ⟩)] ts with
      | nil => exact absurd hrc hne
      | cons x xs =>
        rw [hrc] at hrec
        simp only [List.getLast?_cons_cons]
        exact hrec

/-- C1: starting fresh, if a caller's checks respect the rolling 60-second
window bound — no `i ≤ j` with `ts[j] - ts[i] ≤ 60000` spans more than 10
checks — every check is allowed; and 11 checks all lying within one
60-second span end with the 11th denied as `allowed = false, remaining = 0`. -/
theorem checkRateLimit_rolling_window (ip : String) (ts : List Int)
    (hsort : List.Chain' (fun a b => a ≤ b) ts) :
    ((∀ j, j < ts.length → ∀ i, i ≤ j →
        ts.getD j 0 - ts.getD i 0 ≤ RATE_LIMIT_WINDOW_MS →
        j - i + 1 ≤ RATE_LIMIT_MAX_REQUESTS) →
      ∀ r ∈ runChecks ip [] ts, r.allowed = true) ∧
    (ts.length = RATE_LIMIT_MAX_REQUESTS + 1 →
      (∀ u ∈ ts, ∀ v ∈ ts, v - u ≤ RATE_LIMIT_WINDOW_MS) →
      (runChecks ip [] ts).getLast? = some ⟨false, 0⟩) := by
  have hfirst : ∀ t : Int, checkRateLimit t ip [] =
      (⟨true, RATE_LIMIT_MAX_REQUESTS - 1⟩, [(ip, ⟨1, t⟩)]) := by
    intro t
    simp [checkRateLimit, assocGet, assocSet]
  constructor
  · intro G r hr
    cases ts with
    | nil => simp [runChecks] at hr
    | cons t ts' =>
      simp only [runChecks, hfirst] at hr
      rcases List.mem_cons.mp hr with h1 | h1
      · rw [h1]
      · refine runChecks_allowed_aux ip ts' 1 t le_rfl (by decide)
          (fun k hk hle => ?_) (fun j hj i hij hle => ?_) r h1
        · have hG := G (k + 1)
            (by simp only [List.length_cons]; exact Nat.succ_lt_succ hk) 0
            (Nat.zero_le _)
            (by simp only [List.getD_cons_succ, List.getD_cons_zero]; omega)
          omega
        · have hG := G (j + 1)
            (by simp only [List.length_cons]; exact Nat.succ_lt_succ hj)
            (i + 1) (Nat.succ_le_succ hij)
            (by simp only [List.getD_cons_succ]; exact hle)
          omega
  · intro hlen hwin
    cases ts with
    | nil => exact absurd hlen (by decide)
    | cons t ts' =>
      simp only [runChecks, hfirst]
      have hlen' : 1 + ts'.length = RATE_LIMIT_MAX_REQUESTS + 1 := by
        simp only [List.length_cons] at hlen
        omega
      have hrec := runChecks_denies_aux ip ts' 1 t le_rfl (by decide) hlen'
        (fun u hu => by
          have := hwin t (List.mem_cons_self t ts') u
            (List.mem_cons_of_mem t hu)
          omega)
      have hne : runChecks ip [(ip, ⟨1, t⟩)] ts' ≠ [] := by
        intro he
        have hM : RATE_LIMIT_MAX_REQUESTS = 10 := rfl
        have hl := runChecks_length ip ts' [(ip, ⟨1, t⟩)]
        rw [he] at hl
        simp only [List.length_nil] at hl
        omega
      cases hrc : runChecks ip [(ip, ⟨1, t⟩)] ts' with
      | nil => exact absurd hrc hne
      | cons x xs =>
        rw [hrc] at hrec
        simp only [List.getLast?_cons_cons]
        exact hrec

theorem checkRateLimit_rolling_window_witness :
    (∀ r ∈ runChecks "203.0.113.9" [] [0, 5, 10], r.allowed = true) ∧
    (runChecks "203.0.113.9" []
      [0, 1, 2, 3, 4, 5, 6, 7, 8, 9, 10]).getLast? = some ⟨false, 0⟩ :=
  ⟨(checkRateLimit_rolling_window "203.0.113.9" [0, 5, 10]
      (by simp [List.chain'_cons])).1 (by decide),
   (checkRateLimit_rolling_window "203.0.113.9"
     [0, 1, 2, 3, 4, 5, 6, 7, 8, 9, 10] (by simp [List.chain'_cons])).2
     (by decide) (by decide)⟩
